import Mathlib

/-!
# Verification of the mongo-aggregation-debugger core (`src/index.js`)

A shallow embedding of the pipeline-partitioning and staged-execution engine of
the repository, together with theorems settling the specification's claims.

Modelling conventions:
* Stage specifications, records, engine errors and observer state are opaque
  type parameters `S`, `R`, `E`, `σ`.
* The external aggregation engine (MongoDB) is an abstract `Engine` structure:
  each asynchronous operation of the driver (`connect`, `insert`, `aggregate`,
  `dropDatabase`) is a field returning either success or an engine error.
  `drop` takes the invocation count because the code may call `dropDatabase`
  more than once in a session.
* A session is modelled as the (finite, sequential) trace of observable events
  it produces: connection attempt, insert, hook invocations, engine
  submissions, database drops, connection closes and completion-callback
  invocations.  The single-threaded callback scheduling of node.js makes the
  trace a plain list.
-/

namespace MongoAggDbg

/-! ## Ephemeral store naming (`generateDatabaseName` / `buildConnectionUrl`) -/

/-- `generateDatabaseName` (src/index.js:66-68):
`'mongo_aggregation_debugger_' + process.pid + '_' + Date.now()`. -/
def generateDatabaseName (pid now : Nat) : String :=
  "mongo_aggregation_debugger_" ++ toString pid ++ "_" ++ toString now

/-- The construction-time connection parameters (src/index.js:27-35).
A JavaScript falsy value (missing/null/empty) is modelled as `none`. -/
structure MongoParams where
  host : Option String
  port : Option Nat
  username : Option String
  password : Option String
deriving DecidableEq, Repr

/-- The mutable per-instance state `my` that `buildConnectionUrl` reads and
writes: the cached ephemeral database name (src/index.js:91). -/
structure ModuleState where
  debugDatabaseName : Option String
deriving DecidableEq, Repr

/-- `buildConnectionUrl` (src/index.js:74-96).  `pid` and `now` are the ambient
`process.pid` and `Date.now()` at the moment of the call.  Returns the url
together with the updated module state (the name is cached in
`my.debugDatabaseName` and reused by later calls). -/
def buildConnectionUrl (params : MongoParams) (pid now : Nat) (st : ModuleState) :
    String × ModuleState :=
  let host := params.host.getD "localhost"
  let url := "mongodb://"
  let url := url ++ (match params.username, params.password with
    | some u, some p => u ++ ":" ++ p ++ "@"
    | _, _ => "")
  let url := url ++ host
  let url := url ++ (match params.port with
    | some p => ":" ++ toString p
    | none => "")
  let name := st.debugDatabaseName.getD (generateDatabaseName pid now)
  (url ++ "/" ++ name, { debugDatabaseName := some name })

/-- The ephemeral database name a session uses, given the module state at the
start of the session: the cached name if one exists, a fresh one otherwise. -/
def sessionDatabaseName (pid now : Nat) (st : ModuleState) : String :=
  ((buildConnectionUrl ⟨none, none, none, none⟩ pid now st).2).debugDatabaseName.getD ""

/-! ## Pipeline partitioner (`partitionQuery`, src/index.js:112-130) -/

/-- One iteration of the `query.forEach` loop of `partitionQuery`: at index 0
push `[queryPart]`, otherwise clone `queryParts[index - 1]` (which is the last
element, as `queryParts` has grown by exactly one per iteration) and append the
current stage. -/
def partitionStep {S : Type} (queryParts : List (List S)) (queryPart : S) :
    List (List S) :=
  match queryParts.getLast? with
  | none => queryParts ++ [[queryPart]]
  | some prev => queryParts ++ [prev ++ [queryPart]]

/-- `partitionQuery` (src/index.js:112-130): with `skipStages` the full query
as a single part, otherwise the list of cumulative prefixes built iteratively. -/
def partitionQuery {S : Type} (query : List S) (skipStages : Bool) :
    List (List S) :=
  if skipStages then [query]
  else query.foldl partitionStep []

/-- The intended shape of cumulative partitioning: the non-empty prefixes of
the query, in order of length. -/
def prefixes {S : Type} (query : List S) : List (List S) :=
  (List.range query.length).map (fun i => query.take (i + 1))

/-! ## The staged executor (`debug`, src/index.js:151-238)

`debug(data, query, beforeEach, afterEach, skipStages, cb)` validates its
arguments, connects, then runs `async.series` of: one `insert` task, one task
per query part (beforeEach → aggregate → afterEach), and a final
`dropDatabase` task, finishing with the completion handler of
src/index.js:226-236. -/

/-- The errors `debug` can report through its callback: the three validation
errors it constructs itself (src/index.js:160,171,176) and errors coming back
from the engine (connection, insert, aggregate, dropDatabase). -/
inductive DebugErr (E : Type) where
  | invalidSkipStages
  | invalidData
  | invalidQuery
  | engine (e : E)
deriving DecidableEq, Repr

/-- Observable events of one `debug` session, in the order the node.js runtime
executes them.  `σ` is the state the caller's hooks accumulate (the closure
variables of the observer adapters); `cbEv` records the hook state at the
moment the completion callback is invoked, since the adapters' callbacks read
their closure state at that moment. -/
inductive Event (S R E σ : Type) where
  /-- `debug` threw synchronously (`throw new Error('Invalid callback')`, or a
  `TypeError` from invoking a non-function callback slot). -/
  | threw
  /-- `MongoClient.connect` was invoked (store acquisition attempt). -/
  | connect
  /-- `collection.insert(data, cb)` was invoked (seeding). -/
  | insertEv
  /-- `beforeEach(queryPart, index)` was invoked. -/
  | beforeEv (i : Nat) (part : List S)
  /-- `collection.aggregate(queryPart, cb)` was invoked (engine submission). -/
  | aggEv (i : Nat) (part : List S)
  /-- `afterEach(results, index)` was invoked. -/
  | afterEv (i : Nat) (res : List R)
  /-- `db.dropDatabase(cb)` was invoked (store release); `k` counts prior
  drop invocations in the session. -/
  | dropEv (k : Nat)
  /-- `db.close()` was invoked. -/
  | closeEv
  /-- the completion callback `cb` was invoked with the given error (or
  success) while the hook state was `st`. -/
  | cbEv (err : Option (DebugErr E)) (st : σ)
deriving DecidableEq, Repr

/-- The external engine: outcome of each asynchronous driver operation.
`aggregate` receives the seeded records and the submitted query part;
`drop` receives the session's count of previous `dropDatabase` invocations
(the code may drop twice). -/
structure Engine (S R E : Type) where
  connectErr : Option E
  insertErr : List R → Option E
  aggregate : List R → List S → Except E (List R)
  dropErr : Nat → Option E

/-- A hook argument slot: a callable value, or any non-callable value
(`null`, `undefined`, a number, ...), for which `typeof h !== 'function'`. -/
inductive HookArg (H : Type) where
  | fn (h : H)
  | notFn
deriving DecidableEq, Repr

/-- `typeof h !== 'function' → h = noop` (src/index.js:179-185). -/
def HookArg.orNoop {H : Type} (default : H) : HookArg H → H
  | .fn h => h
  | .notFn => default

/-- A `beforeEach` hook as a pure state transformer: receives the query part
and the stage index (src/index.js:138-142). -/
def BHook (S σ : Type) : Type := List S → Nat → σ → σ

/-- An `afterEach` hook: receives the stage results and the stage index
(src/index.js:143-146). -/
def AHook (R σ : Type) : Type := List R → Nat → σ → σ

def noopB {S σ : Type} : BHook S σ := fun _ _ st => st
def noopA {R σ : Type} : AHook R σ := fun _ _ st => st

/-- The `data` argument as the validation code observes it:
`Array.isArray(data)`, else `data && typeof data === 'object'`, else invalid
(src/index.js:167-173). -/
inductive DataArg (R : Type) where
  /-- an array (of opaque records). -/
  | arr (rows : List R)
  /-- a single non-null, non-array object. -/
  | obj (row : R)
  /-- anything else: `null`, `undefined`, a number, a string, a boolean, … -/
  | invalid
deriving DecidableEq, Repr

/-- Normalization of `data` (src/index.js:167-173): arrays pass through, a
single object is wrapped into a one-element array, anything else is rejected. -/
def normData {R : Type} : DataArg R → Option (List R)
  | .arr rows => some rows
  | .obj row => some [row]
  | .invalid => none

/-- The `query` argument: an array of opaque stages or any non-array value
(src/index.js:175-177). -/
inductive QueryArg (S : Type) where
  | arr (q : List S)
  | notArr
deriving DecidableEq, Repr

/-- How `debug` was called, as its `skipStages`/`cb` dispatch sees it
(src/index.js:154-165). -/
inductive CallForm where
  /-- five-argument call: `skipStages` holds the callback function and `cb` is
  `undefined`, so `cb = skipStages` and `doSkipStages = false`. -/
  | fiveArg
  /-- six-argument call with a boolean `skipStages`; `cbFn` says whether the
  `cb` slot holds a function. -/
  | sixArg (skip : Bool) (cbFn : Bool)
  /-- `skipStages` is neither that function case nor a boolean:
  `return cb(new Error('Invalid skipStages value'))`. -/
  | badSkip (cbFn : Bool)
deriving DecidableEq, Repr

/-- The per-part tasks pushed onto `series` (src/index.js:201-218), run in
order by `async.series`: for each part, call `beforeEach`, submit the part to
the engine, and on success call `afterEach` and continue; on engine error the
series aborts with that error (fail-fast).  Returns the trace of events, the
final hook state, and the aborting error if any. -/
def runStages {S R E σ : Type} (eng : Engine S R E) (rows : List R)
    (before : BHook S σ) (after : AHook R σ) :
    List (List S) → Nat → σ → List (Event S R E σ) × σ × Option E
  | [], _, st => ([], st, none)
  | part :: rest, i, st =>
    let st1 := before part i st
    match eng.aggregate rows part with
    | .error e => ([.beforeEv i part, .aggEv i part], st1, some e)
    | .ok res =>
      let st2 := after res i st1
      let out := runStages eng rows before after rest (i + 1) st2
      (.beforeEv i part :: .aggEv i part :: .afterEv i res :: out.1,
       out.2.1, out.2.2)

/-- The whole `async.series(series, …)` call (src/index.js:195-226): the
`insert` task, the per-part tasks, and the final `dropDatabase` task, aborting
at the first error.  Returns the trace, the final hook state, the aborting
error if any, and the number of `dropDatabase` invocations performed (0 or 1),
which the completion handler needs for any further drop. -/
def seriesPhase {S R E σ : Type} (eng : Engine S R E) (rows : List R)
    (parts : List (List S)) (before : BHook S σ) (after : AHook R σ)
    (st : σ) : List (Event S R E σ) × σ × Option E × Nat :=
  match eng.insertErr rows with
  | some e => ([.insertEv], st, some e, 0)
  | none =>
    let out := runStages eng rows before after parts 0 st
    match out.2.2 with
    | some e => (.insertEv :: out.1, out.2.1, some e, 0)
    | none => (.insertEv :: out.1 ++ [.dropEv 0], out.2.1, eng.dropErr 0, 1)

/-- The `async.series` completion handler (src/index.js:226-236).  On success:
`db.close(); return cb()`.  On error `e`, the code initiates
`db.dropDatabase(function (anotherErr) { db.close(); return cb(anotherErr || err); })`
and then — the `if` block has no `return`/`else` — falls through to
`db.close(); return cb();` before the asynchronous drop completes; once it
completes, the inner callback closes again and reports `anotherErr || err`. -/
def completion {S R E σ : Type} (eng : Engine S R E) (st : σ)
    (err : Option E) (k : Nat) : List (Event S R E σ) :=
  match err with
  | none => [.closeEv, .cbEv none st]
  | some e =>
    let finalErr : DebugErr E :=
      match eng.dropErr k with
      | some e2 => .engine e2
      | none => .engine e
    [.dropEv k, .closeEv, .cbEv none st, .closeEv, .cbEv (some finalErr) st]

/-- The body of `debug` after the `skipStages`/`cb` dispatch has succeeded and
`cb` is known to be a function (src/index.js:167-237): validate `data` and
`query`, connect, and run the series with the completion handler.  Hook slots
that are not callable are replaced by no-ops. -/
def debugBody {S R E σ : Type} (eng : Engine S R E) (data : DataArg R)
    (query : QueryArg S) (bh : HookArg (BHook S σ)) (ah : HookArg (AHook R σ))
    (doSkip : Bool) (st : σ) : List (Event S R E σ) :=
  match normData data with
  | none => [.cbEv (some .invalidData) st]
  | some rows =>
    match query with
    | .notArr => [.cbEv (some .invalidQuery) st]
    | .arr q =>
      match eng.connectErr with
      | some e => [.connect, .cbEv (some (.engine e)) st]
      | none =>
        let parts := partitionQuery q doSkip
        let out := seriesPhase eng rows parts (bh.orNoop noopB)
          (ah.orNoop noopA) st
        .connect :: out.1 ++ completion eng out.2.1 out.2.2.1 out.2.2.2

/-- `debug` (src/index.js:151-238), as the trace of the session it runs.
The `skipStages`/`cb` dispatch comes first (src/index.js:154-161); a
non-function callback slot makes the session throw synchronously
(src/index.js:163-165, or the `TypeError` from `cb(...)` at line 160). -/
def debug {S R E σ : Type} (eng : Engine S R E) (data : DataArg R)
    (query : QueryArg S) (bh : HookArg (BHook S σ)) (ah : HookArg (AHook R σ))
    (form : CallForm) (st : σ) : List (Event S R E σ) :=
  match form with
  | .badSkip cbFn =>
    if cbFn then [.cbEv (some .invalidSkipStages) st] else [.threw]
  | .fiveArg => debugBody eng data query bh ah false st
  | .sixArg skip cbFn =>
    if cbFn then debugBody eng data query bh ah skip st else [.threw]

/-! ## Observer adapters (`log`, `stages`, `exec`, src/index.js:253-358) -/

/-- One entry of the `output` accumulator of `stages` (src/index.js:310-321):
a JavaScript object that may carry a `query` field (set by `beforeEach`) and a
`results` field (set by `afterEach`); `{}` is both fields absent. -/
structure StageEntry (S R : Type) where
  query : Option (List S) := none
  results : Option (List R) := none
deriving DecidableEq, Repr

/-- `beforeEach` of `stages` (src/index.js:312-316):
`output.push({ query: queryPart })`. -/
def stagesBeforeHook {S R : Type} : BHook S (List (StageEntry S R)) :=
  fun part _ out => out ++ [{ query := some part }]

/-- `afterEach` of `stages` (src/index.js:318-321):
`output[index] = output[index] || {}; output[index].results = results`.
An out-of-range index extends the array, holes reading as `{}` (unreachable in
actual runs, where `beforeEach(i)` always precedes `afterEach(i)`). -/
def stagesAfterHook {S R : Type} : AHook R (List (StageEntry S R)) :=
  fun res i out =>
    if h : i < out.length then
      out.set i { out[i] with results := some res }
    else
      out ++ List.replicate (i - out.length) (⟨none, none⟩ : StageEntry S R)
        ++ [{ results := some res }]

/-- The callback wrapper `stages` hands to `debug` (src/index.js:323-329):
`if (err) return cb(err); else return cb(null, output)`, reading the `output`
closure variable at invocation time.  Applied to each completion-callback
invocation of the trace, it yields the list of `(err, output)` pairs the
caller's callback receives. -/
def stagesCbCalls {S R E : Type}
    (tr : List (Event S R E (List (StageEntry S R)))) :
    List (Option (DebugErr E) × Option (List (StageEntry S R))) :=
  tr.filterMap fun ev => match ev with
    | .cbEv (some err) _ => some (some err, none)
    | .cbEv none st => some (none, some st)
    | _ => none

/-- `stages` (src/index.js:305-330): replace a non-function callback by a
no-op, then call `debug(data, query, beforeEach, afterEach, wrapper)` — a
five-argument call, so cumulative (non-skip) mode.  Returns the session trace
and the invocations the caller's callback observes (none, if it was not a
function). -/
def stagesRun {S R E : Type} (eng : Engine S R E) (data : DataArg R)
    (query : QueryArg S) (cbFn : Bool) :
    List (Event S R E (List (StageEntry S R)))
      × List (Option (DebugErr E) × Option (List (StageEntry S R))) :=
  let tr := debug eng data query (.fn stagesBeforeHook) (.fn stagesAfterHook)
    .fiveArg []
  (tr, if cbFn then stagesCbCalls tr else [])

/-- `afterEach` of `exec` (src/index.js:347-349): `output = results`, with
`output` initially `undefined` (`none`). -/
def execAfterHook {R : Type} : AHook R (Option (List R)) :=
  fun res _ _ => some res

/-- The callback wrapper `exec` hands to `debug` (src/index.js:351-357). -/
def execCbCalls {S R E : Type} (tr : List (Event S R E (Option (List R)))) :
    List (Option (DebugErr E) × Option (Option (List R))) :=
  tr.filterMap fun ev => match ev with
    | .cbEv (some err) _ => some (some err, none)
    | .cbEv none st => some (none, some st)
    | _ => none

/-- `exec` (src/index.js:340-358): replace a non-function callback by a no-op,
then `debug(data, query, null, afterEach, true, wrapper)` — `beforeEach` is
`null` (not callable) and `skipStages` is `true`. -/
def execRun {S R E : Type} (eng : Engine S R E) (data : DataArg R)
    (query : QueryArg S) (cbFn : Bool) :
    List (Event S R E (Option (List R)))
      × List (Option (DebugErr E) × Option (Option (List R))) :=
  let tr := debug eng data query .notFn (.fn execAfterHook)
    (.sixArg true true) none
  (tr, if cbFn then execCbCalls tr else [])

/-- The callback wrapper `log` hands to `debug` (src/index.js:287-294): on
error `cb(err)`, otherwise print the end banner and `cb()`. -/
def logCbCalls {S R E : Type} (tr : List (Event S R E Unit)) :
    List (Option (DebugErr E)) :=
  tr.filterMap fun ev => match ev with
    | .cbEv err _ => some err
    | _ => none

/-- `log` (src/index.js:253-295): its hooks only render to the console, i.e.
accumulate nothing observable in this model (`σ = Unit`); a non-function
callback is replaced by a no-op; then a five-argument `debug` call
(cumulative mode). -/
def logRun {S R E : Type} (eng : Engine S R E) (data : DataArg R)
    (query : QueryArg S) (cbFn : Bool) :
    List (Event S R E Unit) × List (Option (DebugErr E)) :=
  let tr := debug eng data query (.fn (fun _ _ u => u)) (.fn (fun _ _ u => u))
    .fiveArg ()
  (tr, if cbFn then logCbCalls tr else [])

/-! ## Trace projections -/

/-- Is this event a completion-callback invocation? -/
def Event.isCb {S R E σ : Type} : Event S R E σ → Bool
  | .cbEv _ _ => true
  | _ => false

/-- Is this event a `dropDatabase` (store release) invocation? -/
def Event.isDrop {S R E σ : Type} : Event S R E σ → Bool
  | .dropEv _ => true
  | _ => false

/-- Is this event one of the three per-stage events (hook or submission)? -/
def Event.isStage {S R E σ : Type} : Event S R E σ → Bool
  | .beforeEv _ _ => true
  | .aggEv _ _ => true
  | .afterEv _ _ => true
  | _ => false

/-- The completion-callback reports of a session, in invocation order: `none`
is a success report, `some e` an error report. -/
def cbReports {S R E σ : Type} (tr : List (Event S R E σ)) :
    List (Option (DebugErr E)) :=
  tr.filterMap fun ev => match ev with
    | .cbEv err _ => some err
    | _ => none

/-- The per-stage events of a session, tagged `0` for `beforeEach`, `1` for the
engine submission, `2` for `afterEach`, each with its stage index. -/
def stageEvents {S R E σ : Type} (tr : List (Event S R E σ)) :
    List (Nat × Nat) :=
  tr.filterMap fun ev => match ev with
    | .beforeEv i _ => some (0, i)
    | .aggEv i _ => some (1, i)
    | .afterEv i _ => some (2, i)
    | _ => none

/-- The engine submissions of a session: each `collection.aggregate` call with
its stage index and the submitted sub-pipeline. -/
def aggSubmissions {S R E σ : Type} (tr : List (Event S R E σ)) :
    List (Nat × List S) :=
  tr.filterMap fun ev => match ev with
    | .aggEv i part => some (i, part)
    | _ => none

/-- The result set the engine returns for a sub-pipeline known to succeed. -/
def okRes {S R E : Type} (eng : Engine S R E) (rows : List R) (p : List S) :
    List R :=
  match eng.aggregate rows p with
  | .ok res => res
  | .error _ => []

/-! ## Concrete engine instances (for witnesses and counterexamples) -/

/-- An engine on which every operation succeeds; aggregation returns the
seeded rows followed by the submitted stages (so the result determines the
submitted sub-pipeline). -/
def engOK : Engine Nat Nat Nat where
  connectErr := none
  insertErr := fun _ => none
  aggregate := fun rows part => .ok (rows ++ part)
  dropErr := fun _ => none

/-- An engine on which every aggregation fails with error `5`; everything else
succeeds. -/
def engStageFail : Engine Nat Nat Nat where
  connectErr := none
  insertErr := fun _ => none
  aggregate := fun _ _ => .error 5
  dropErr := fun _ => none

/-- An engine on which every aggregation fails with error `5` and every
`dropDatabase` fails with error `9`. -/
def engStageDropFail : Engine Nat Nat Nat where
  connectErr := none
  insertErr := fun _ => none
  aggregate := fun _ _ => .error 5
  dropErr := fun _ => some 9

/-- An engine on which everything succeeds except the first `dropDatabase`
of the session, which fails with error `9`. -/
def engTeardownFail : Engine Nat Nat Nat where
  connectErr := none
  insertErr := fun _ => none
  aggregate := fun rows _ => .ok rows
  dropErr := fun k => if k = 0 then some 9 else none

/-! # Proofs -/

/-! ## The partitioner computes cumulative prefixes -/

lemma prefixes_nil {S : Type} : prefixes ([] : List S) = [] := rfl

lemma prefixes_append_singleton {S : Type} (q : List S) (x : S) :
    prefixes (q ++ [x]) = prefixes q ++ [q ++ [x]] := by
  unfold prefixes
  rw [List.length_append, List.length_singleton, List.range_succ, List.map_append]
  congr 1
  · apply List.map_congr_left
    intro i hi
    rw [List.mem_range] at hi
    rw [List.take_append_of_le_length (by omega)]
  · simp

lemma getLast?_prefixes {S : Type} (q : List S) (hq : q ≠ []) :
    (prefixes q).getLast? = some q := by
  induction q using List.reverseRecOn with
  | nil => exact absurd rfl hq
  | append_singleton xs x _ =>
    rw [prefixes_append_singleton]
    simp [List.getLast?_concat]

lemma foldl_partitionStep (rest : List S) :
    ∀ pre : List S, List.foldl partitionStep (prefixes pre) rest
      = prefixes (pre ++ rest) := by
  induction rest with
  | nil => intro pre; simp
  | cons x xs ih =>
    intro pre
    rw [List.foldl_cons]
    have hstep : partitionStep (prefixes pre) x = prefixes (pre ++ [x]) := by
      unfold partitionStep
      rcases eq_or_ne pre [] with h | h
      · subst h; simp [prefixes_nil, prefixes, List.range_succ]
      · rw [getLast?_prefixes pre h, prefixes_append_singleton]
    rw [hstep]
    have := ih (pre ++ [x])
    simpa using this

/-- Cumulative partitioning produces exactly the non-empty prefixes. -/
theorem partitionQuery_eq_prefixes {S : Type} (query : List S) :
    partitionQuery query false = prefixes query := by
  have := foldl_partitionStep (S := S) query []
  simpa [partitionQuery] using this

theorem partitionQuery_length {S : Type} (query : List S) :
    (partitionQuery query false).length = query.length := by
  rw [partitionQuery_eq_prefixes]
  simp [prefixes]

theorem partitionQuery_getElem {S : Type} (query : List S) (i : Nat)
    (h : i < (partitionQuery query false).length) :
    (partitionQuery query false)[i] = query.take (i + 1) := by
  rw [partitionQuery_length] at h
  simp [partitionQuery_eq_prefixes, prefixes, h]

/-! ## Structural facts about the staged series -/

lemma exists_ok_of_isOk {E A : Type} (x : Except E A) (h : x.isOk = true) :
    ∃ a, x = .ok a := by
  cases x with
  | error e => simp [Except.isOk, Except.toBool] at h
  | ok a => exact ⟨a, rfl⟩

lemma runStages_stage_only {S R E σ : Type} (eng : Engine S R E) (rows : List R)
    (before : BHook S σ) (after : AHook R σ) (parts : List (List S)) (i : Nat)
    (st : σ) :
    ∀ ev ∈ (runStages eng rows before after parts i st).1, ev.isStage = true := by
  induction parts generalizing i st with
  | nil => intro ev hev; simp [runStages] at hev
  | cons part rest ih =>
    intro ev hev
    rw [runStages] at hev
    rcases haggr : eng.aggregate rows part with e | res <;> rw [haggr] at hev <;>
      simp at hev
    · rcases hev with h | h <;> subst h <;> rfl
    · rcases hev with h | h | h | h
      · subst h; rfl
      · subst h; rfl
      · subst h; rfl
      · exact ih (i + 1) _ ev h

lemma runStages_err_iff {S R E σ : Type} (eng : Engine S R E) (rows : List R)
    (before : BHook S σ) (after : AHook R σ) (parts : List (List S)) (i : Nat)
    (st : σ) :
    (runStages eng rows before after parts i st).2.2 = none
      ↔ ∀ p ∈ parts, (eng.aggregate rows p).isOk = true := by
  induction parts generalizing i st with
  | nil => simp [runStages]
  | cons part rest ih =>
    rw [runStages]
    rcases haggr : eng.aggregate rows part with e | res
    · simp [haggr, Except.isOk, Except.toBool]
    · simp [haggr, Except.isOk, Except.toBool, ih]

lemma isCb_false_of_isStage {S R E σ : Type} (ev : Event S R E σ)
    (h : ev.isStage = true) : ev.isCb = false := by
  cases ev <;> simp_all [Event.isStage, Event.isCb]

lemma isDrop_false_of_isStage {S R E σ : Type} (ev : Event S R E σ)
    (h : ev.isStage = true) : ev.isDrop = false := by
  cases ev <;> simp_all [Event.isStage, Event.isDrop]

lemma ne_threw_of_isStage {S R E σ : Type} (ev : Event S R E σ)
    (h : ev.isStage = true) : ev ≠ .threw := by
  cases ev <;> simp_all [Event.isStage]

lemma filterMap_runStages_eq_nil {S R E σ β : Type} (eng : Engine S R E)
    (rows : List R) (before : BHook S σ) (after : AHook R σ)
    (parts : List (List S)) (i : Nat) (st : σ) (f : Event S R E σ → Option β)
    (hf : ∀ ev : Event S R E σ, ev.isStage = true → f ev = none) :
    ((runStages eng rows before after parts i st).1).filterMap f = [] := by
  rw [List.filterMap_eq_nil_iff]
  intro ev hev
  exact hf ev (runStages_stage_only eng rows before after parts i st ev hev)

lemma countP_runStages_eq_zero {S R E σ : Type} (eng : Engine S R E)
    (rows : List R) (before : BHook S σ) (after : AHook R σ)
    (parts : List (List S)) (i : Nat) (st : σ) (p : Event S R E σ → Bool)
    (hp : ∀ ev : Event S R E σ, ev.isStage = true → p ev = false) :
    ((runStages eng rows before after parts i st).1).countP p = 0 := by
  rw [List.countP_eq_zero]
  intro ev hev
  simp [hp ev (runStages_stage_only eng rows before after parts i st ev hev)]

lemma takeWhile_append_of_forall {α : Type} (p : α → Bool) (l1 l2 : List α)
    (h : ∀ a ∈ l1, p a = true) :
    (l1 ++ l2).takeWhile p = l1 ++ l2.takeWhile p := by
  induction l1 with
  | nil => rfl
  | cons a as ih =>
    have ha := h a (by simp)
    simp [List.takeWhile_cons, ha, ih (fun x hx => h x (by simp [hx]))]

lemma set_concat_length {α : Type} (l : List α) (a x : α) :
    (l ++ [a]).set l.length x = l ++ [x] := by
  induction l with
  | nil => rfl
  | cons b bs ih =>
    show b :: ((bs ++ [a]).set bs.length x) = b :: (bs ++ [x])
    rw [ih]

lemma getElem_concat_len {α : Type} (l : List α) (a : α)
    (h : l.length < (l ++ [a]).length) : (l ++ [a])[l.length] = a := by
  induction l with
  | nil => rfl
  | cons b bs ih => exact ih (by simp)

lemma seriesPhase_ok {S R E σ : Type} (eng : Engine S R E) (rows : List R)
    (parts : List (List S)) (before : BHook S σ) (after : AHook R σ) (st : σ)
    (hi : eng.insertErr rows = none)
    (hok : ∀ p ∈ parts, (eng.aggregate rows p).isOk = true) :
    seriesPhase eng rows parts before after st
      = (.insertEv :: (runStages eng rows before after parts 0 st).1
           ++ [.dropEv 0],
         (runStages eng rows before after parts 0 st).2.1, eng.dropErr 0, 1) := by
  have herr := (runStages_err_iff eng rows before after parts 0 st).mpr hok
  unfold seriesPhase
  rw [hi]
  simp [herr]

lemma debugBody_valid {S R E σ : Type} (eng : Engine S R E) (data : DataArg R)
    (rows : List R) (q : List S) (bh : HookArg (BHook S σ))
    (ah : HookArg (AHook R σ)) (doSkip : Bool) (s0 : σ)
    (hd : normData data = some rows) (hc : eng.connectErr = none) :
    debugBody eng data (.arr q) bh ah doSkip s0
      = .connect
          :: (seriesPhase eng rows (partitionQuery q doSkip) (bh.orNoop noopB)
                (ah.orNoop noopA) s0).1
          ++ completion eng
               (seriesPhase eng rows (partitionQuery q doSkip) (bh.orNoop noopB)
                 (ah.orNoop noopA) s0).2.1
               (seriesPhase eng rows (partitionQuery q doSkip) (bh.orNoop noopB)
                 (ah.orNoop noopA) s0).2.2.1
               (seriesPhase eng rows (partitionQuery q doSkip) (bh.orNoop noopB)
                 (ah.orNoop noopA) s0).2.2.2 := by
  unfold debugBody
  rw [hd, hc]

lemma stagesAfterHook_concat {S R : Type} (res : List R)
    (out : List (StageEntry S R)) (part : List S) :
    stagesAfterHook res out.length (out ++ [⟨some part, none⟩])
      = out ++ [⟨some part, some res⟩] := by
  unfold stagesAfterHook
  rw [dif_pos (by simp)]
  rw [getElem_concat_len _ _ (by simp)]
  rw [set_concat_length]

lemma runStages_stages_state {S R E : Type} (eng : Engine S R E)
    (rows : List R) (parts : List (List S)) (out : List (StageEntry S R))
    (hok : ∀ p ∈ parts, (eng.aggregate rows p).isOk = true) :
    (runStages eng rows stagesBeforeHook stagesAfterHook parts out.length
      out).2.1
      = out ++ parts.map (fun p => ⟨some p, some (okRes eng rows p)⟩) := by
  induction parts generalizing out with
  | nil => simp [runStages]
  | cons part rest ih =>
    rw [runStages]
    rcases haggr : eng.aggregate rows part with e | res
    · have h1 := hok part (by simp)
      rw [haggr] at h1
      simp [Except.isOk, Except.toBool] at h1
    · have hbefore : stagesBeforeHook part out.length out
          = out ++ [(⟨some part, none⟩ : StageEntry S R)] := rfl
      simp only [hbefore, stagesAfterHook_concat]
      have hlen : (out ++ [(⟨some part, some res⟩ : StageEntry S R)]).length
          = out.length + 1 := by simp
      have hrec := ih (out ++ [⟨some part, some res⟩])
        (fun p hp => hok p (by simp [hp]))
      rw [hlen] at hrec
      rw [hrec]
      simp [okRes, haggr]

lemma runStages_stageEvents_ok {S R E σ : Type} (eng : Engine S R E)
    (rows : List R) (before : BHook S σ) (after : AHook R σ)
    (parts : List (List S)) (i : Nat) (st : σ)
    (hok : ∀ p ∈ parts, (eng.aggregate rows p).isOk = true) :
    stageEvents (runStages eng rows before after parts i st).1
      = (List.range parts.length).flatMap
          (fun j => [(0, i + j), (1, i + j), (2, i + j)]) := by
  induction parts generalizing i st with
  | nil => simp [runStages, stageEvents]
  | cons part rest ih =>
    rw [runStages]
    rcases haggr : eng.aggregate rows part with e | res
    · have h1 := hok part (by simp)
      rw [haggr] at h1
      simp [Except.isOk, Except.toBool] at h1
    · have htl := ih (i + 1) (after res i (before part i st))
        (fun p hp => hok p (by simp [hp]))
      simp only [stageEvents, List.filterMap_cons] at htl ⊢
      simp only [htl]
      rw [List.length_cons, List.range_succ_eq_map, List.flatMap_cons,
        List.flatMap_map]
      have harith : ∀ j : Nat, i + 1 + j = i + (j + 1) := fun j => by omega
      simp [Function.comp, harith]

lemma threw_not_mem_runStages {S R E σ : Type} (eng : Engine S R E)
    (rows : List R) (before : BHook S σ) (after : AHook R σ)
    (parts : List (List S)) (i : Nat) (st : σ) :
    (Event.threw : Event S R E σ) ∉ (runStages eng rows before after parts i st).1 := by
  intro hmem
  exact ne_threw_of_isStage _
    (runStages_stage_only eng rows before after parts i st _ hmem) rfl

lemma threw_not_mem_seriesPhase {S R E σ : Type} (eng : Engine S R E)
    (rows : List R) (parts : List (List S)) (before : BHook S σ)
    (after : AHook R σ) (st : σ) :
    (Event.threw : Event S R E σ)
      ∉ (seriesPhase eng rows parts before after st).1 := by
  intro hmem
  unfold seriesPhase at hmem
  rcases hi : eng.insertErr rows with _ | e <;> rw [hi] at hmem
  · rcases herr : (runStages eng rows before after parts 0 st).2.2 with _ | e <;>
      simp [herr] at hmem <;>
      exact threw_not_mem_runStages eng rows before after parts 0 st hmem
  · simp at hmem

lemma threw_not_mem_completion {S R E σ : Type} (eng : Engine S R E) (st : σ)
    (err : Option E) (k : Nat) :
    (Event.threw : Event S R E σ) ∉ completion eng st err k := by
  rcases err <;> simp [completion]

lemma threw_not_mem_debugBody {S R E σ : Type} (eng : Engine S R E)
    (data : DataArg R) (query : QueryArg S) (bh : HookArg (BHook S σ))
    (ah : HookArg (AHook R σ)) (doSkip : Bool) (s0 : σ) :
    (Event.threw : Event S R E σ) ∉ debugBody eng data query bh ah doSkip s0 := by
  intro hmem
  unfold debugBody at hmem
  rcases hd : normData data with _ | rows <;> rw [hd] at hmem
  · simp at hmem
  · rcases query with q | _
    · rcases hc : eng.connectErr with _ | e <;> rw [hc] at hmem
      · simp at hmem
        rcases hmem with h | h
        · exact threw_not_mem_seriesPhase eng rows (partitionQuery q doSkip)
            (bh.orNoop noopB) (ah.orNoop noopA) s0 h
        · exact threw_not_mem_completion eng _ _ _ h
      · simp at hmem
    · simp at hmem

/-! ## Claim theorems -/

/-- C9 (confirmed): a hook slot of the staged executor that is missing or not
callable is replaced by a no-op hook, so the run is identical to a run given
explicit no-op hooks, and a non-callable hook never causes the run to fail:
`debug` with any hook arguments behaves exactly as `debug` with the
normalized, always-callable hooks. -/
theorem hooks_default_to_noop {S R E σ : Type} (eng : Engine S R E)
    (data : DataArg R) (query : QueryArg S) (bh : HookArg (BHook S σ))
    (ah : HookArg (AHook R σ)) (form : CallForm) (s0 : σ) :
    debug eng data query bh ah form s0
      = debug eng data query (.fn (bh.orNoop noopB)) (.fn (ah.orNoop noopA))
          form s0 := by
  cases bh <;> cases ah <;> rfl

/-- C8 (confirmed): a records argument that is neither an object nor an array,
or a pipeline argument that is not an array, makes the run fail with the
corresponding validation error delivered through the callback, with no store
acquisition (no `connect` event) and no other side effect; a single record
object is normalized into a one-element array and is not an error. -/
theorem validation_precedes_side_effects {S R E σ : Type} (eng : Engine S R E)
    (dataBad dataGood : DataArg R) (rows : List R) (query : QueryArg S)
    (bh : HookArg (BHook S σ)) (ah : HookArg (AHook R σ)) (b : Bool) (s0 : σ)
    (row : R) :
    (normData dataBad = none →
      debug eng dataBad query bh ah (.sixArg b true) s0
          = [.cbEv (some .invalidData) s0]
        ∧ Event.connect ∉ debug eng dataBad query bh ah (.sixArg b true) s0)
    ∧ (normData dataGood = some rows →
        debug eng dataGood .notArr bh ah (.sixArg b true) s0
            = [.cbEv (some .invalidQuery) s0]
          ∧ Event.connect ∉ debug eng dataGood .notArr bh ah (.sixArg b true) s0)
    ∧ debug eng (.obj row) query bh ah (.sixArg b true) s0
        = debug eng (.arr [row]) query bh ah (.sixArg b true) s0 := by
  refine ⟨?_, ?_, rfl⟩
  · intro hd
    have h1 : debug eng dataBad query bh ah (.sixArg b true) s0
        = [.cbEv (some .invalidData) s0] := by
      show debugBody eng dataBad query bh ah b s0 = _
      unfold debugBody
      rw [hd]
    exact ⟨h1, by rw [h1]; simp⟩
  · intro hd
    have h1 : debug eng dataGood .notArr bh ah (.sixArg b true) s0
        = [.cbEv (some .invalidQuery) s0] := by
      show debugBody eng dataGood .notArr bh ah b s0 = _
      unfold debugBody
      rw [hd]
    exact ⟨h1, by rw [h1]; simp⟩

/-- C8 witness: a numeric records argument is rejected as invalid data and a
non-array pipeline as an invalid query, both without a connection attempt,
while a single record object behaves as its one-element wrapping. -/
theorem validation_precedes_side_effects_witness :
    (debug engOK .invalid (.arr [1]) .notFn .notFn (.sixArg false true) ()
        = [.cbEv (some .invalidData) ()]
      ∧ Event.connect
          ∉ debug engOK .invalid (.arr [1]) .notFn .notFn (.sixArg false true) ())
    ∧ (debug engOK (.arr [10]) .notArr .notFn .notFn (.sixArg false true) ()
        = [.cbEv (some .invalidQuery) ()]
      ∧ Event.connect
          ∉ debug engOK (.arr [10]) .notArr .notFn .notFn (.sixArg false true) ())
    ∧ debug engOK (.obj 7) (.arr [1]) .notFn .notFn (.sixArg false true) ()
        = debug engOK (.arr [7]) (.arr [1]) .notFn .notFn (.sixArg false true) () :=
  ⟨(validation_precedes_side_effects engOK .invalid (.arr [10]) [10] (.arr [1])
      .notFn .notFn false () 7).1 rfl,
   (validation_precedes_side_effects engOK .invalid (.arr [10]) [10] (.arr [1])
      .notFn .notFn false () 7).2.1 rfl,
   (validation_precedes_side_effects engOK .invalid (.arr [10]) [10] (.arr [1])
      .notFn .notFn false () 7).2.2⟩

/-- C5 counterexample: two sessions of the same debugger instance do NOT get
distinct fresh store names: the second session (process 1, timestamp 20)
reuses the name cached by the first session (process 1, timestamp 10) instead
of a name derived from its own start timestamp. -/
theorem session_name_reused_counterexample :
    (buildConnectionUrl ⟨none, none, none, none⟩ 1 20
        (buildConnectionUrl ⟨none, none, none, none⟩ 1 10
          ⟨none⟩).2).2.debugDatabaseName
      = some (generateDatabaseName 1 10)
    ∧ (buildConnectionUrl ⟨none, none, none, none⟩ 1 20
        (buildConnectionUrl ⟨none, none, none, none⟩ 1 10
          ⟨none⟩).2).2.debugDatabaseName
      ≠ some (generateDatabaseName 1 20) := by
  constructor
  · rfl
  · decide

/-- C5 (corrected): only a session that starts with an empty name cache
generates a fresh store name, derived from process identity and the
high-resolution timestamp; every session that starts with a cached name — in
particular any later session of the same debugger instance — reuses that
cached name, so distinct sessions of one instance share the same ephemeral
store rather than each observing its own. -/
theorem first_session_generates_then_caches_name (params : MongoParams)
    (pid now pid2 now2 : Nat) (st : ModuleState) :
    (buildConnectionUrl params pid now ⟨none⟩).2.debugDatabaseName
        = some (generateDatabaseName pid now)
    ∧ (∀ n : String, st.debugDatabaseName = some n →
        (buildConnectionUrl params pid2 now2 st).2.debugDatabaseName = some n) := by
  constructor
  · rfl
  · intro n hn
    simp [buildConnectionUrl, hn]

/-- C5 witness: a first session with process id 1 and timestamp 2 generates
the derived name; a session starting with cached name "abc" keeps "abc". -/
theorem first_session_generates_then_caches_name_witness :
    (buildConnectionUrl ⟨none, none, none, none⟩ 1 2 ⟨none⟩).2.debugDatabaseName
        = some (generateDatabaseName 1 2)
    ∧ (buildConnectionUrl ⟨none, none, none, none⟩ 3 4
        ⟨some "abc"⟩).2.debugDatabaseName = some "abc" :=
  ⟨(first_session_generates_then_caches_name ⟨none, none, none, none⟩ 1 2 3 4
      ⟨some "abc"⟩).1,
   (first_session_generates_then_caches_name ⟨none, none, none, none⟩ 1 2 3 4
      ⟨some "abc"⟩).2 "abc" rfl⟩

/-- C10 (confirmed): each public entry point given a non-function completion
callback runs the identical full session (same trace as with a function
callback), throws nothing, and delivers no output or error to anyone. -/
theorem noncallable_callback_discarded {S R E : Type} (eng : Engine S R E)
    (data : DataArg R) (query : QueryArg S) :
    ((stagesRun eng data query false).1 = (stagesRun eng data query true).1
      ∧ (stagesRun eng data query false).2 = []
      ∧ Event.threw ∉ (stagesRun eng data query false).1)
    ∧ ((execRun eng data query false).1 = (execRun eng data query true).1
      ∧ (execRun eng data query false).2 = []
      ∧ Event.threw ∉ (execRun eng data query false).1)
    ∧ ((logRun eng data query false).1 = (logRun eng data query true).1
      ∧ (logRun eng data query false).2 = []
      ∧ Event.threw ∉ (logRun eng data query false).1) := by
  refine ⟨⟨rfl, rfl, ?_⟩, ⟨rfl, rfl, ?_⟩, ⟨rfl, rfl, ?_⟩⟩
  · exact threw_not_mem_debugBody eng data query (.fn stagesBeforeHook)
      (.fn stagesAfterHook) false []
  · exact threw_not_mem_debugBody eng data query .notFn (.fn execAfterHook)
      true none
  · exact threw_not_mem_debugBody eng data query (.fn (fun _ _ u => u))
      (.fn (fun _ _ u => u)) false ()

lemma stageEvents_completion {S R E σ : Type} (eng : Engine S R E) (st : σ)
    (err : Option E) (k : Nat) : stageEvents (completion eng st err k) = [] := by
  rcases err <;> simp [completion, stageEvents]

lemma stagesCbCalls_runStages_nil {S R E : Type} (eng : Engine S R E)
    (rows : List R) (parts : List (List S)) (i : Nat)
    (out : List (StageEntry S R)) :
    stagesCbCalls (runStages eng rows stagesBeforeHook stagesAfterHook
      parts i out).1 = [] := by
  rw [stagesCbCalls, List.filterMap_eq_nil_iff]
  intro a ha
  have hs := runStages_stage_only eng rows stagesBeforeHook stagesAfterHook
    parts i out a ha
  cases a <;> simp_all [Event.isStage]

/-- C4 (confirmed): in cumulative mode with a reachable engine and a
successful run, Collection mode (`stages`) reports success exactly once, with
one output entry per pipeline stage, entry `i` recording as its sub-pipeline
the first `i + 1` stages of the original pipeline in order; an empty pipeline
(`q = []`) yields the empty output without error. -/
theorem stages_delivers_prefix_entries {S R E : Type} (eng : Engine S R E)
    (data : DataArg R) (rows : List R) (q : List S)
    (hd : normData data = some rows)
    (hc : eng.connectErr = none)
    (hi : eng.insertErr rows = none)
    (hok : ∀ p ∈ partitionQuery q false, (eng.aggregate rows p).isOk = true)
    (hdrop : eng.dropErr 0 = none) :
    ∃ out : List (StageEntry S R),
      (stagesRun eng data (.arr q) true).2 = [(none, some out)]
      ∧ out.length = q.length
      ∧ ∀ i (h : i < out.length),
          (out.get ⟨i, h⟩).query = some (q.take (i + 1)) := by
  have hstate := runStages_stages_state eng rows (partitionQuery q false) [] hok
  simp only [List.length_nil, List.nil_append] at hstate
  have hcalls : (stagesRun eng data (.arr q) true).2
      = [(none, some ((runStages eng rows stagesBeforeHook stagesAfterHook
          (partitionQuery q false) 0 []).2.1))] := by
    show stagesCbCalls (debugBody eng data (.arr q) (.fn stagesBeforeHook)
      (.fn stagesAfterHook) false []) = _
    rw [debugBody_valid eng data rows q (.fn stagesBeforeHook)
      (.fn stagesAfterHook) false [] hd hc]
    simp only [HookArg.orNoop]
    rw [seriesPhase_ok eng rows (partitionQuery q false) stagesBeforeHook
      stagesAfterHook [] hi hok]
    rw [hdrop]
    simp only [completion]
    have hnil := stagesCbCalls_runStages_nil eng rows (partitionQuery q false)
      0 []
    simp only [stagesCbCalls] at hnil
    simp [stagesCbCalls, List.filterMap_append, hnil]
  refine ⟨(partitionQuery q false).map
    (fun p => ⟨some p, some (okRes eng rows p)⟩), ?_, ?_, ?_⟩
  · rw [hcalls, hstate]
  · simp [partitionQuery_length]
  · intro i h
    simp only [List.get_eq_getElem, List.getElem_map]
    have hi2 : i < (partitionQuery q false).length := by simpa using h
    rw [partitionQuery_getElem q i hi2]

/-- C4 witness: with a two-stage pipeline and an all-succeeding engine,
Collection mode reports success once, with two entries whose recorded
sub-pipelines are the two cumulative prefixes. -/
theorem stages_delivers_prefix_entries_witness :
    ∃ out : List (StageEntry Nat Nat),
      (stagesRun engOK (.arr [10]) (.arr [1, 2]) true).2 = [(none, some out)]
      ∧ out.length = ([1, 2] : List Nat).length
      ∧ ∀ i (h : i < out.length),
          (out.get ⟨i, h⟩).query = some (([1, 2] : List Nat).take (i + 1)) :=
  stages_delivers_prefix_entries engOK (.arr [10]) [10] [1, 2] rfl rfl rfl
    (by decide) rfl

/-- C6 (confirmed): Single-result mode (`exec`) submits exactly one
sub-pipeline to the engine — the full, unpartitioned pipeline, at stage index
0 — whatever the outcome of that submission; and when the submission and the
teardown succeed, the callback receives exactly one success report carrying
that single result set. -/
theorem exec_submits_full_pipeline_once {S R E : Type} (eng : Engine S R E)
    (data : DataArg R) (rows : List R) (q : List S)
    (hd : normData data = some rows)
    (hc : eng.connectErr = none)
    (hi : eng.insertErr rows = none) :
    aggSubmissions (execRun eng data (.arr q) true).1 = [(0, q)]
    ∧ (∀ res : List R, eng.aggregate rows q = .ok res →
        eng.dropErr 0 = none →
        (execRun eng data (.arr q) true).2 = [(none, some (some res))]) := by
  constructor
  · show aggSubmissions (debugBody eng data (.arr q) .notFn
      (.fn execAfterHook) true none) = _
    unfold debugBody
    rw [hd, hc]
    rcases haggr : eng.aggregate rows q with e | res
    · simp [partitionQuery, seriesPhase, hi, runStages, haggr, completion,
        aggSubmissions]
    · rcases hdrop : eng.dropErr 0 with _ | e2 <;>
        simp [partitionQuery, seriesPhase, hi, runStages, haggr, completion,
          hdrop, aggSubmissions]
  · intro res haggr hdrop
    show execCbCalls (debugBody eng data (.arr q) .notFn
      (.fn execAfterHook) true none) = _
    unfold debugBody
    rw [hd, hc]
    simp [partitionQuery, seriesPhase, hi, runStages, haggr, completion,
      hdrop, execCbCalls, execAfterHook, HookArg.orNoop, noopB, noopA]

/-- C6 witness: for records `[10]` and pipeline `[1, 2]` on the
all-succeeding engine, `exec` submits exactly `[1, 2]` once and its callback
receives the single result set. -/
theorem exec_submits_full_pipeline_once_witness :
    aggSubmissions (execRun engOK (.arr [10]) (.arr [1, 2]) true).1
        = [(0, [1, 2])]
    ∧ (execRun engOK (.arr [10]) (.arr [1, 2]) true).2
        = [(none, some (some [10, 1, 2]))] :=
  ⟨(exec_submits_full_pipeline_once engOK (.arr [10]) [10] [1, 2]
      rfl rfl rfl).1,
   (exec_submits_full_pipeline_once engOK (.arr [10]) [10] [1, 2]
      rfl rfl rfl).2 [10, 1, 2] rfl rfl⟩

/-- C7 (confirmed): in cumulative mode on a successful run, the per-stage
events happen strictly sequentially and in order: for each stage index `i` in
increasing order, the `beforeEach` hook fires (tag 0), then the sub-pipeline
is submitted to the engine (tag 1), then the `afterEach` hook fires with the
results (tag 2), before anything of stage `i + 1` happens. -/
theorem hooks_fire_in_stage_order {S R E σ : Type} (eng : Engine S R E)
    (data : DataArg R) (rows : List R) (q : List S) (bh : HookArg (BHook S σ))
    (ah : HookArg (AHook R σ)) (s0 : σ)
    (hd : normData data = some rows)
    (hc : eng.connectErr = none)
    (hi : eng.insertErr rows = none)
    (hok : ∀ p ∈ partitionQuery q false, (eng.aggregate rows p).isOk = true) :
    stageEvents (debug eng data (.arr q) bh ah .fiveArg s0)
      = (List.range q.length).flatMap (fun i => [(0, i), (1, i), (2, i)]) := by
  show stageEvents (debugBody eng data (.arr q) bh ah false s0) = _
  rw [debugBody_valid eng data rows q bh ah false s0 hd hc]
  rw [seriesPhase_ok eng rows (partitionQuery q false) (bh.orNoop noopB)
    (ah.orNoop noopA) s0 hi hok]
  have hrun := runStages_stageEvents_ok eng rows (bh.orNoop noopB)
    (ah.orNoop noopA) (partitionQuery q false) 0 s0 hok
  have hcomp := stageEvents_completion eng
    (runStages eng rows (bh.orNoop noopB) (ah.orNoop noopA)
      (partitionQuery q false) 0 s0).2.1 (eng.dropErr 0) 1
  simp only [stageEvents, List.filterMap_cons, List.filterMap_append]
    at hrun hcomp ⊢
  simp [hrun, hcomp, partitionQuery_length]

/-- C7 witness: with pipeline `[1, 2]` on the all-succeeding engine the
per-stage events are exactly before(0), submit(0), after(0), before(1),
submit(1), after(1). -/
theorem hooks_fire_in_stage_order_witness :
    stageEvents (debug engOK (.arr [10]) (.arr [1, 2]) .notFn .notFn
        .fiveArg ())
      = (List.range ([1, 2] : List Nat).length).flatMap
          (fun i => [(0, i), (1, i), (2, i)]) :=
  hooks_fire_in_stage_order engOK (.arr [10]) [10] [1, 2] .notFn .notFn ()
    rfl rfl rfl (by decide)

lemma one_le_countP_takeWhile_cons {α : Type} (p q : α → Bool) (a : α)
    (l : List α) (hqa : q a = true) (h : 1 ≤ (l.takeWhile q).countP p) :
    1 ≤ ((a :: l).takeWhile q).countP p := by
  rw [List.takeWhile_cons, if_pos hqa]
  simp only [List.countP_cons]
  omega

lemma one_le_countP_takeWhile_append {α : Type} (p q : α → Bool)
    (l1 l2 : List α) (hq : ∀ a ∈ l1, q a = true)
    (h : 1 ≤ (l2.takeWhile q).countP p) :
    1 ≤ ((l1 ++ l2).takeWhile q).countP p := by
  rw [takeWhile_append_of_forall q l1 l2 hq, List.countP_append]
  omega

lemma notCb_of_runStages {S R E σ : Type} (eng : Engine S R E) (rows : List R)
    (before : BHook S σ) (after : AHook R σ) (parts : List (List S)) (i : Nat)
    (st : σ) :
    ∀ ev ∈ (runStages eng rows before after parts i st).1, (!ev.isCb) = true := by
  intro ev hev
  rw [isCb_false_of_isStage ev
    (runStages_stage_only eng rows before after parts i st ev hev)]
  rfl

/-- C1 (corrected): for every session that passes validation and acquires the
store, at least one store-release (`dropDatabase`) is invoked before the first
completion-callback invocation, and the total number of release invocations is
one or two — exactly two precisely when seeding and every sub-pipeline succeed
but the in-series teardown itself fails, in which case the error handler
attempts the release a second time. -/
theorem release_before_callback_once_or_twice {S R E σ : Type}
    (eng : Engine S R E) (data : DataArg R) (rows : List R) (q : List S)
    (bh : HookArg (BHook S σ)) (ah : HookArg (AHook R σ)) (b : Bool) (s0 : σ)
    (hd : normData data = some rows) (hc : eng.connectErr = none) :
    1 ≤ ((debug eng data (.arr q) bh ah (.sixArg b true) s0).takeWhile
          (fun ev => !ev.isCb)).countP Event.isDrop
    ∧ ((debug eng data (.arr q) bh ah (.sixArg b true) s0).countP
          Event.isDrop = 1
        ∨ (debug eng data (.arr q) bh ah (.sixArg b true) s0).countP
            Event.isDrop = 2)
    ∧ ((debug eng data (.arr q) bh ah (.sixArg b true) s0).countP
          Event.isDrop = 2
        ↔ (eng.insertErr rows = none
           ∧ (∀ p ∈ partitionQuery q b, (eng.aggregate rows p).isOk = true)
           ∧ eng.dropErr 0 ≠ none)) := by
  have hbody : debug eng data (.arr q) bh ah (.sixArg b true) s0
      = debugBody eng data (.arr q) bh ah b s0 := rfl
  rw [hbody, debugBody_valid eng data rows q bh ah b s0 hd hc]
  have hstg := notCb_of_runStages eng rows (bh.orNoop noopB) (ah.orNoop noopA)
    (partitionQuery q b) 0 s0
  have hzero := countP_runStages_eq_zero eng rows (bh.orNoop noopB)
    (ah.orNoop noopA) (partitionQuery q b) 0 s0 Event.isDrop
    isDrop_false_of_isStage
  rcases hi : eng.insertErr rows with _ | e
  · rcases herr : (runStages eng rows (bh.orNoop noopB) (ah.orNoop noopA)
        (partitionQuery q b) 0 s0).2.2 with _ | e
    · -- seeding and all sub-pipelines succeed
      have hok := (runStages_err_iff eng rows (bh.orNoop noopB)
        (ah.orNoop noopA) (partitionQuery q b) 0 s0).mp herr
      rw [seriesPhase_ok eng rows (partitionQuery q b) (bh.orNoop noopB)
        (ah.orNoop noopA) s0 hi hok]
      rcases hdrop : eng.dropErr 0 with _ | e2
      · -- teardown succeeds: single in-series release
        simp only [completion]
        refine ⟨?_, ?_, ?_⟩
        · simp only [List.cons_append, List.append_assoc,
            List.singleton_append]
          apply one_le_countP_takeWhile_cons _ _ _ _ rfl
          apply one_le_countP_takeWhile_cons _ _ _ _ rfl
          apply one_le_countP_takeWhile_append _ _ _ _ hstg
          simp [List.takeWhile_cons, List.countP_cons, Event.isCb,
            Event.isDrop]
        · left
          simp [List.countP_cons, List.countP_append, hzero, Event.isDrop]
        · constructor
          · intro h2
            exfalso
            simp [List.countP_cons, List.countP_append, hzero,
              Event.isDrop] at h2
          · rintro ⟨-, -, h3⟩
            exact absurd rfl h3
      · -- teardown fails: the error handler releases a second time
        simp only [completion]
        refine ⟨?_, ?_, ?_⟩
        · simp only [List.cons_append, List.append_assoc,
            List.singleton_append]
          apply one_le_countP_takeWhile_cons _ _ _ _ rfl
          apply one_le_countP_takeWhile_cons _ _ _ _ rfl
          apply one_le_countP_takeWhile_append _ _ _ _ hstg
          simp [List.takeWhile_cons, List.countP_cons, Event.isCb,
            Event.isDrop]
        · right
          simp [List.countP_cons, List.countP_append, hzero, Event.isDrop]
        · constructor
          · intro _
            exact ⟨by trivial, hok, by simp⟩
          · intro _
            simp [List.countP_cons, List.countP_append, hzero, Event.isDrop]
    · -- a sub-pipeline fails: no in-series release, one handler release
      have hser : seriesPhase eng rows (partitionQuery q b) (bh.orNoop noopB)
          (ah.orNoop noopA) s0
          = (.insertEv :: (runStages eng rows (bh.orNoop noopB)
               (ah.orNoop noopA) (partitionQuery q b) 0 s0).1,
             (runStages eng rows (bh.orNoop noopB) (ah.orNoop noopA)
               (partitionQuery q b) 0 s0).2.1, some e, 0) := by
        unfold seriesPhase
        rw [hi]
        simp [herr]
      rw [hser]
      simp only [completion]
      refine ⟨?_, ?_, ?_⟩
      · simp only [List.cons_append, List.append_assoc,
          List.singleton_append]
        apply one_le_countP_takeWhile_cons _ _ _ _ rfl
        apply one_le_countP_takeWhile_cons _ _ _ _ rfl
        apply one_le_countP_takeWhile_append _ _ _ _ hstg
        simp [List.takeWhile_cons, List.countP_cons, Event.isCb, Event.isDrop]
      · left
        simp [List.countP_cons, List.countP_append, hzero, Event.isDrop]
      · constructor
        · intro h2
          exfalso
          simp [List.countP_cons, List.countP_append, hzero,
            Event.isDrop] at h2
        · rintro ⟨-, hok2, -⟩
          have := (runStages_err_iff eng rows (bh.orNoop noopB)
            (ah.orNoop noopA) (partitionQuery q b) 0 s0).mpr hok2
          rw [herr] at this
          cases this
  · -- seeding fails: no in-series release, one handler release
    have hser : seriesPhase eng rows (partitionQuery q b) (bh.orNoop noopB)
        (ah.orNoop noopA) s0 = ([.insertEv], s0, some e, 0) := by
      unfold seriesPhase
      rw [hi]
    rw [hser]
    simp only [completion]
    refine ⟨?_, ?_, ?_⟩
    · simp [List.takeWhile_cons, List.countP_cons, Event.isCb, Event.isDrop]
    · left
      simp [List.countP_cons, Event.isDrop]
    · constructor
      · intro h2
        exfalso
        simp [List.countP_cons, Event.isDrop] at h2
      · rintro ⟨h1, -, -⟩
        cases h1

/-- C1 witness: a fully successful session on the all-succeeding engine
releases the store exactly once, before the completion callback fires. -/
theorem release_before_callback_once_or_twice_witness :
    1 ≤ ((debug engOK (.arr [10]) (.arr [1]) .notFn .notFn (.sixArg false true)
          ()).takeWhile (fun ev => !ev.isCb)).countP Event.isDrop
    ∧ ((debug engOK (.arr [10]) (.arr [1]) .notFn .notFn (.sixArg false true)
          ()).countP Event.isDrop = 1
        ∨ (debug engOK (.arr [10]) (.arr [1]) .notFn .notFn (.sixArg false true)
            ()).countP Event.isDrop = 2)
    ∧ ((debug engOK (.arr [10]) (.arr [1]) .notFn .notFn (.sixArg false true)
          ()).countP Event.isDrop = 2
        ↔ (engOK.insertErr [10] = none
           ∧ (∀ p ∈ partitionQuery [1] false,
                (engOK.aggregate [10] p).isOk = true)
           ∧ engOK.dropErr 0 ≠ none)) :=
  release_before_callback_once_or_twice engOK (.arr [10]) [10] [1]
    .notFn .notFn false () rfl rfl

/-- C1 counterexample: a session whose processing succeeds but whose in-series
teardown fails invokes the store release twice, not exactly once. -/
theorem release_invoked_twice_counterexample :
    (debug engTeardownFail (.arr [10]) (.arr [1]) .notFn .notFn
        (.sixArg false true) ()).countP Event.isDrop = 2
    ∧ ¬ (debug engTeardownFail (.arr [10]) (.arr [1]) .notFn .notFn
        (.sixArg false true) ()).countP Event.isDrop = 1 := by
  constructor
  · decide
  · decide

/-- C2 (code bug): on a session whose single sub-pipeline fails with engine
error 5, the completion handler of src/index.js:226-236 — whose `if (err)`
block lacks a `return`/`else` — invokes the completion callback twice: first
with a success report, then with the error; the callback therefore does not
report an error exactly once when a step failed. -/
theorem failing_session_reports_success_first :
    cbReports (debug engStageFail (.arr [10]) (.arr [1]) .notFn .notFn
        (.sixArg false true) ())
      = [none, some (.engine 5)] := by
  decide

/-- C3 (code bug): when a sub-pipeline fails with engine error 5 and the
best-effort cleanup then fails with engine error 9, the error report the
caller receives carries only the cleanup error (`anotherErr || err` at
src/index.js:230); the original processing error 5 is lost entirely instead
of staying the primary error. -/
theorem cleanup_error_replaces_original :
    cbReports (debug engStageDropFail (.arr [10]) (.arr [1]) .notFn .notFn
        (.sixArg false true) ())
      = [none, some (.engine 9)]
    ∧ some (DebugErr.engine 5)
        ∉ cbReports (debug engStageDropFail (.arr [10]) (.arr [1]) .notFn
            .notFn (.sixArg false true) ()) := by
  constructor
  · decide
  · decide

end MongoAggDbg
